import Mathlib

/-!
Verification of the Daily Engagement & Streak Tracking Engine of `src/app.py`
(Teach Hub).  The SQLite tables are embedded as Lean lists of rows, and each
database helper of the source becomes a pure Lean function on those lists.

Modelling conventions:
* Calendar dates are stored by the source as `YYYY-MM-DD` strings; string
  comparison on that format coincides with chronological order and
  `timedelta(days=1)` steps one day.  We therefore model a date as a `Nat`
  (a day number), with `d - 1` the previous day and `≤` the SQL comparisons.
* `date.today()` and `now_str()` read the wall clock; the wall clock is made
  an explicit parameter (`today : Nat`, `now : String`) of the embedding of
  every function that reads it.
* SQLite's `UNIQUE` + `ON CONFLICT ... DO UPDATE` updates the (unique)
  conflicting row; the embedding updates every row matching the key, which
  agrees with SQLite on every state satisfying the uniqueness constraint
  (and the constraint holds in every reachable state, see `C4`).
-/

namespace TeachHub

/-- The six ASCII characters Python classifies as whitespace (`str.strip`,
regex `\s`); non-ASCII Unicode whitespace is out of the modelled alphabet. -/
def isPySpace (c : Char) : Bool :=
  c == ' ' || c == '\t' || c == '\n' || c == '\r' || c == '\x0b' || c == '\x0c'

/-- Remove leading and trailing whitespace from a character list. -/
def stripChars (l : List Char) : List Char :=
  ((l.dropWhile isPySpace).reverse.dropWhile isPySpace).reverse

/-- Python `s.strip()`. -/
def pyStrip (s : String) : String :=
  ⟨stripChars s.data⟩

/-- Python `re.sub(r"\s+", " ", s)`: replace every maximal whitespace run by a
single space.  The Boolean argument records whether the previous character was
part of a whitespace run. -/
def collapseWsAux : Bool → List Char → List Char
  | _, [] => []
  | prevWs, c :: rest =>
    if isPySpace c then
      if prevWs then collapseWsAux true rest
      else ' ' :: collapseWsAux true rest
    else c :: collapseWsAux false rest

/-- Replace each whitespace run in a character list by one space. -/
def collapseWs (l : List Char) : List Char :=
  collapseWsAux false l

/-- Membership in the character class `[a-zA-Z0-9 _-]` of
`re.sub(r"[^a-zA-Z0-9 _-]", "", n)`. -/
def isAllowedChar (c : Char) : Bool :=
  (decide ('a' ≤ c) && decide (c ≤ 'z')) ||
  (decide ('A' ≤ c) && decide (c ≤ 'Z')) ||
  (decide ('0' ≤ c) && decide (c ≤ '9')) ||
  c == ' ' || c == '_' || c == '-'

/-- `clean_nickname` (src/app.py lines 51-56): strip surrounding whitespace,
collapse internal whitespace runs to one space, delete every character outside
`[a-zA-Z0-9 _-]`, and keep the first 20 characters. -/
def clean_nickname (s : String) : String :=
  ⟨((collapseWs (stripChars s.data)).filter isAllowedChar).take 20⟩

/-- A row of the `challenge_logs` table (src/app.py lines 130-142); the
surrogate `id` column plays no role in any query and is omitted. -/
structure LogRow where
  log_date : Nat
  author : String
  challenge_code : String
  completed : Nat
  created_at : String
deriving DecidableEq

/-- The `UNIQUE(log_date, author, challenge_code)` key test for one row. -/
def lkey (d : Nat) (u c : String) (r : LogRow) : Bool :=
  r.log_date == d && r.author == u && r.challenge_code == c

/-- Two `challenge_logs` rows collide on the unique key. -/
def sameLogKey (a b : LogRow) : Bool :=
  a.log_date == b.log_date && a.author == b.author &&
    a.challenge_code == b.challenge_code

/-- The `UNIQUE(log_date, author, challenge_code)` constraint of the schema:
no two rows share the key. -/
def logsUnique (tbl : List LogRow) : Prop :=
  tbl.Pairwise (fun a b => sameLogKey a b = false)

/-- `set_challenge_completion` (src/app.py lines 459-472):
`INSERT ... ON CONFLICT(log_date, author, challenge_code) DO UPDATE SET
completed = excluded.completed, created_at = excluded.created_at`.
`now` is the wall-clock string `now_str()`. -/
def set_challenge_completion (tbl : List LogRow) (author : String)
    (log_date : Nat) (challenge_code : String) (completed : Nat)
    (now : String) : List LogRow :=
  if tbl.any (lkey log_date author challenge_code) then
    tbl.map (fun r =>
      if lkey log_date author challenge_code r then
        { r with completed := completed, created_at := now }
      else r)
  else
    tbl ++ [⟨log_date, author, challenge_code, completed, now⟩]

/-- The `SELECT DISTINCT log_date FROM challenge_logs WHERE author = ? AND
completed = 1` query of `compute_streak` (src/app.py lines 517-528). -/
def completedDates (tbl : List LogRow) (author : String) : List Nat :=
  ((tbl.filter (fun r => r.author == author && r.completed == 1)).map
    (fun r => r.log_date)).dedup

/-- The backward walk of `compute_streak` (src/app.py lines 529-538): starting
at day `d`, count consecutive days contained in `s`, stopping at the first day
absent from `s`.  (Day 0 is an epoch below every storable date.) -/
def streakLoop (s : List Nat) : Nat → Nat
  | 0 => if 0 ∈ s then 1 else 0
  | d + 1 => if d + 1 ∈ s then streakLoop s d + 1 else 0

/-- `compute_streak` (src/app.py lines 509-538).  The source takes only
`author`; `today` is the wall-clock date `date.today()` read inside the
function. -/
def compute_streak (tbl : List LogRow) (author : String) (today : Nat) : Nat :=
  streakLoop (completedDates tbl author) today

/-- `completed_count_in_range` (src/app.py lines 541-555): `SELECT COUNT(*)
... WHERE author = ? AND completed = 1 AND log_date >= ? AND log_date <= ?`. -/
def completed_count_in_range (tbl : List LogRow) (author : String)
    (start_date end_date : Nat) : Nat :=
  tbl.countP (fun r => r.author == author && r.completed == 1 &&
    decide (start_date ≤ r.log_date) && decide (r.log_date ≤ end_date))

/-- `daily_completion_total` (src/app.py lines 558-571): `SELECT COUNT(*)
... WHERE author = ? AND log_date = ? AND completed = 1`. -/
def daily_completion_total (tbl : List LogRow) (author : String)
    (log_date : Nat) : Nat :=
  tbl.countP (fun r => r.author == author && r.log_date == log_date &&
    r.completed == 1)

/-- A row of the `daily_reflections` table (src/app.py lines 144-157); the
surrogate `id` column is omitted. -/
structure ReflRow where
  log_date : Nat
  author : String
  win : String
  stress_shift : String
  note : String
  created_at : String
deriving DecidableEq

/-- The `UNIQUE(log_date, author)` key test for one reflection row. -/
def rkey (d : Nat) (u : String) (r : ReflRow) : Bool :=
  r.author == u && r.log_date == d

/-- Two `daily_reflections` rows collide on the unique key. -/
def sameReflKey (a b : ReflRow) : Bool :=
  a.log_date == b.log_date && a.author == b.author

/-- The `UNIQUE(log_date, author)` constraint of the schema. -/
def reflsUnique (tbl : List ReflRow) : Prop :=
  tbl.Pairwise (fun a b => sameReflKey a b = false)

/-- The record returned by `fetch_reflection`. -/
structure Reflection where
  win : String
  stress_shift : String
  note : String
deriving DecidableEq

/-- Python `row[i] or ""` on a string field: `""` stays `""`, anything else is
returned unchanged. -/
def orEmpty (s : String) : String :=
  if s == "" then "" else s

/-- `fetch_reflection` (src/app.py lines 475-490): `SELECT win, stress_shift,
note FROM daily_reflections WHERE author = ? AND log_date = ?`, `fetchone()`;
absent row gives three empty strings. -/
def fetch_reflection (tbl : List ReflRow) (author : String) (log_date : Nat) :
    Reflection :=
  match tbl.find? (rkey log_date author) with
  | none => ⟨"", "", ""⟩
  | some r => ⟨orEmpty r.win, orEmpty r.stress_shift, orEmpty r.note⟩

/-- `save_reflection` (src/app.py lines 493-506): strips each text field, then
`INSERT ... ON CONFLICT(log_date, author) DO UPDATE SET win = excluded.win,
stress_shift = excluded.stress_shift, note = excluded.note, created_at =
excluded.created_at`. -/
def save_reflection (tbl : List ReflRow) (author : String) (log_date : Nat)
    (win stress_shift note : String) (now : String) : List ReflRow :=
  if tbl.any (rkey log_date author) then
    tbl.map (fun r =>
      if rkey log_date author r then
        { r with win := pyStrip win, stress_shift := pyStrip stress_shift,
                 note := pyStrip note, created_at := now }
      else r)
  else
    tbl ++ [⟨log_date, author, pyStrip win, pyStrip stress_shift,
             pyStrip note, now⟩]

/-- A row of the `challenges` table (src/app.py lines 117-128); the surrogate
`id` column is omitted (it only orders `fetch_challenges`, not used here). -/
structure Challenge where
  code : String
  title : String
  category : String
  instruction : String
  seconds : Nat
deriving DecidableEq

/-- The `default_challenges` seed list (src/app.py lines 160-177). -/
def default_challenges : List Challenge :=
  [⟨"CHALLENGE_MINDSET", "Challenge mindset", "Stress → Performance",
    "Pick ONE moment today to reframe as a challenge (not a threat). Say: “I’m excited” or “This is practice.”", 60⟩,
   ⟨"BREATH_RESET", "30-second breathing reset", "Stress → Performance",
    "Breathe in for 5, out for 5 (or 6) for 3 cycles. Use before meetings/classes.", 45⟩,
   ⟨"SMALL_GOAL", "Small goal (finishable)", "Momentum",
    "Write ONE small task you will finish today. When done, take 2 minutes to enjoy the win.", 90⟩,
   ⟨"MOVE_10", "10-minute brisk walk", "Brain boost",
    "Move for 10 minutes (walk counts). Outdoor if possible. Aim to reset your head, not smash a workout.", 600⟩,
   ⟨"SINGLE_TASK", "Single-task focus", "Workload",
    "Turn off notifications for 20 minutes and do ONE thing properly.", 1200⟩,
   ⟨"POSTURE_CHECK", "Posture check", "Energy",
    "Sit tall / shoulders open for 60 seconds. Head up. Reset your state.", 60⟩,
   ⟨"RIGHT_HAND_SQUEEZE", "Right-hand squeeze", "Confidence",
    "Squeeze your right hand firmly for ~45 seconds before a stressful moment (call / presentation).", 45⟩,
   ⟨"PAUSE_BETWEEN", "Pause between tasks", "Attention",
    "Take a 2–5 minute pause between tasks (breathing / stretch / short reset) instead of rushing.", 180⟩]

/-- One `INSERT OR IGNORE INTO challenges` statement (src/app.py lines
179-186): insert the row unless a row with the same `code` exists. -/
def insert_or_ignore_challenge (tbl : List Challenge) (c : Challenge) :
    List Challenge :=
  if tbl.any (fun r => r.code == c.code) then tbl else tbl ++ [c]

/-- The seeding loop of `init_db` (src/app.py lines 179-186): run
`INSERT OR IGNORE` for every default challenge. -/
def seed_default_challenges (tbl : List Challenge) : List Challenge :=
  default_challenges.foldl insert_or_ignore_challenge tbl

/-- The `code TEXT UNIQUE` constraint of the `challenges` schema. -/
def codesUnique (tbl : List Challenge) : Prop :=
  tbl.Pairwise (fun a b => (a.code == b.code) = false)

instance (tbl : List LogRow) : Decidable (logsUnique tbl) := by
  unfold logsUnique; infer_instance

instance (tbl : List ReflRow) : Decidable (reflsUnique tbl) := by
  unfold reflsUnique; infer_instance

instance (tbl : List Challenge) : Decidable (codesUnique tbl) := by
  unfold codesUnique; infer_instance

/-- A store with one completed log on day 100 (example store for the streak
claims). -/
def c1_logs : List LogRow :=
  [⟨100, "u", "SMALL_GOAL", 1, "t"⟩]

/-- A store where one user completed three distinct challenges on day 6
(example store for the windowed-count claims). -/
def c6_logs : List LogRow :=
  [⟨6, "u", "BREATH_RESET", 1, "t"⟩, ⟨6, "u", "SMALL_GOAL", 1, "t"⟩,
   ⟨6, "u", "MOVE_10", 1, "t"⟩]

/-! ### Generic lemmas about the upsert pattern -/

theorem orEmpty_eq (s : String) : orEmpty s = s := by
  unfold orEmpty
  split
  · next h => exact (beq_iff_eq.mp h).symm
  · rfl

theorem filter_map_update {α : Type} (p : α → Bool) (f : α → α)
    (hf : ∀ a, p (f a) = p a) (tbl : List α) :
    (tbl.map (fun a => if p a then f a else a)).filter p
      = (tbl.filter p).map f := by
  induction tbl with
  | nil => rfl
  | cons a t ih =>
    by_cases h : p a = true
    · simp only [List.map_cons, List.filter_cons, h, if_true, hf, ih]
    · simp only [List.map_cons, List.filter_cons, h, if_false,
        Bool.false_eq_true, ih]

theorem pairwise_filter_len_le_one {α : Type} {R : α → α → Prop}
    {p : α → Bool} (hcomp : ∀ a b, p a = true → p b = true → ¬ R a b)
    (tbl : List α) (h : tbl.Pairwise R) : (tbl.filter p).length ≤ 1 := by
  induction tbl with
  | nil => simp
  | cons a t ih =>
    rcases List.pairwise_cons.mp h with ⟨ha, ht⟩
    by_cases hpa : p a = true
    · have hnil : t.filter p = [] := by
        rw [List.filter_eq_nil_iff]
        intro b hb hpb
        exact hcomp a b hpa hpb (ha b hb)
      simp [List.filter_cons, hpa, hnil]
    · simpa [List.filter_cons, hpa] using ih ht

theorem filter_len_pos_of_any {α : Type} {p : α → Bool} {tbl : List α}
    (h : tbl.any p = true) : 1 ≤ (tbl.filter p).length := by
  rcases List.any_eq_true.mp h with ⟨x, hx, hpx⟩
  have : x ∈ tbl.filter p := List.mem_filter.mpr ⟨hx, hpx⟩
  exact List.length_pos.mpr (List.ne_nil_of_mem this)

theorem filter_eq_singleton {α : Type} {R : α → α → Prop} {p : α → Bool}
    (hcomp : ∀ a b, p a = true → p b = true → ¬ R a b) (tbl : List α)
    (h : tbl.Pairwise R) (hany : tbl.any p = true) :
    ∃ r, tbl.filter p = [r] :=
  List.length_eq_one.mp (Nat.le_antisymm
    (pairwise_filter_len_le_one hcomp tbl h) (filter_len_pos_of_any hany))

theorem find?_map_pres {α : Type} (p : α → Bool) (g : α → α)
    (hg : ∀ a, p (g a) = p a) (tbl : List α) :
    (tbl.map g).find? p = (tbl.find? p).map g := by
  induction tbl with
  | nil => rfl
  | cons a t ih =>
    by_cases h : p a = true
    · rw [List.map_cons, List.find?_cons_of_pos _ (by rw [hg]; exact h),
        List.find?_cons_of_pos _ h]
      rfl
    · rw [List.map_cons,
        List.find?_cons_of_neg _ (by rw [hg]; exact h),
        List.find?_cons_of_neg _ h, ih]

theorem find?_append_none {α : Type} (p : α → Bool) {l₁ : List α}
    (h : l₁.find? p = none) (l₂ : List α) :
    (l₁ ++ l₂).find? p = l₂.find? p := by
  induction l₁ with
  | nil => rfl
  | cons a t ih =>
    rw [List.find?_cons] at h
    rcases hpa : p a with _ | _
    · rw [List.cons_append, List.find?_cons_of_neg _ (by simp [hpa])]
      exact ih (by simpa [hpa] using h)
    · simp [hpa] at h

/-! ### Lemmas about `set_challenge_completion` -/

/-- The conflict update of `set_challenge_completion` rewrites only
`completed` and `created_at`; the key columns are untouched. -/
theorem lkey_update (d : Nat) (u c : String) (v : Nat) (now : String)
    (r : LogRow) :
    lkey d u c { r with completed := v, created_at := now } = lkey d u c r :=
  rfl

/-- Two rows of the key `(d, u, c)` collide with each other. -/
theorem lkey_collides (d : Nat) (u c : String) (a b : LogRow)
    (ha : lkey d u c a = true) (hb : lkey d u c b = true) :
    ¬ sameLogKey a b = false := by
  unfold lkey at ha hb
  unfold sameLogKey
  simp only [Bool.and_eq_true, beq_iff_eq] at ha hb ⊢
  simp [ha.1.1, ha.1.2, ha.2, hb.1.1, hb.1.2, hb.2]

/-- After an upsert on a state satisfying the uniqueness constraint, the rows
matching the key are exactly one row carrying the new `completed` value. -/
theorem set_filter_completed (tbl : List LogRow) (u : String) (d : Nat)
    (c : String) (v : Nat) (now : String) (h : logsUnique tbl) :
    ((set_challenge_completion tbl u d c v now).filter (lkey d u c)).map
      (fun r => r.completed) = [v] := by
  unfold set_challenge_completion
  by_cases hany : tbl.any (lkey d u c) = true
  · rw [if_pos hany,
      filter_map_update (lkey d u c) _ (fun a => lkey_update d u c v now a)]
    rcases filter_eq_singleton (lkey_collides d u c) tbl h hany with ⟨r, hr⟩
    rw [hr]
    rfl
  · rw [if_neg hany]
    rw [List.filter_append,
      List.filter_eq_nil_iff.mpr
        (fun a ha' => by simpa using List.any_eq_false.mp (by simpa using hany) a ha')]
    simp [lkey]

/-- The upsert of `set_challenge_completion` preserves the
`UNIQUE(log_date, author, challenge_code)` constraint. -/
theorem set_preserves_logsUnique (tbl : List LogRow) (u : String) (d : Nat)
    (c : String) (v : Nat) (now : String) (h : logsUnique tbl) :
    logsUnique (set_challenge_completion tbl u d c v now) := by
  unfold set_challenge_completion logsUnique
  unfold logsUnique at h
  by_cases hany : tbl.any (lkey d u c) = true
  · rw [if_pos hany]
    refine List.Pairwise.map _ (fun a b hab => ?_) h
    by_cases ha : lkey d u c a = true <;> by_cases hb : lkey d u c b = true <;>
      simp only [ha, hb, if_true, if_false] <;> exact hab
  · rw [if_neg hany]
    rw [List.pairwise_append]
    refine ⟨h, List.pairwise_singleton _ _, fun a ha' b hb' => ?_⟩
    rw [List.mem_singleton] at hb'
    subst hb'
    have hna : ¬ lkey d u c a = true :=
      List.any_eq_false.mp (by simpa using hany) a ha'
    show sameLogKey a ⟨d, u, c, v, now⟩ = false
    unfold lkey at hna
    unfold sameLogKey
    simpa using fun h1 h2 h3 => hna (by simp [h1, h2, h3])

/-- Folding any sequence of `set_challenge_completion` calls preserves the
uniqueness constraint. -/
theorem foldl_set_preserves_logsUnique (u : String) (d : Nat) (c : String)
    (vs : List (Nat × String)) :
    ∀ tbl : List LogRow, logsUnique tbl →
      logsUnique (vs.foldl
        (fun t x => set_challenge_completion t u d c x.1 x.2) tbl) := by
  induction vs with
  | nil => exact fun tbl h => h
  | cons x vs ih =>
    intro tbl h
    exact ih _ (set_preserves_logsUnique tbl u d c x.1 x.2 h)

/-! ### Lemmas about `save_reflection` / `fetch_reflection` -/

/-- The conflict update of `save_reflection` keeps the key columns. -/
theorem rkey_update (d : Nat) (u : String) (w s n now : String)
    (r : ReflRow) :
    rkey d u { r with win := w, stress_shift := s, note := n,
                      created_at := now } = rkey d u r :=
  rfl

/-- Two reflection rows of the key `(d, u)` collide with each other. -/
theorem rkey_collides (d : Nat) (u : String) (a b : ReflRow)
    (ha : rkey d u a = true) (hb : rkey d u b = true) :
    ¬ sameReflKey a b = false := by
  unfold rkey at ha hb
  unfold sameReflKey
  simp only [Bool.and_eq_true, beq_iff_eq] at ha hb ⊢
  simp [ha.1, ha.2, hb.1, hb.2]

/-- The upsert of `save_reflection` preserves the `UNIQUE(log_date, author)`
constraint. -/
theorem save_preserves_reflsUnique (tbl : List ReflRow) (u : String)
    (d : Nat) (w s n now : String) (h : reflsUnique tbl) :
    reflsUnique (save_reflection tbl u d w s n now) := by
  unfold save_reflection reflsUnique
  unfold reflsUnique at h
  by_cases hany : tbl.any (rkey d u) = true
  · rw [if_pos hany]
    refine List.Pairwise.map _ (fun a b hab => ?_) h
    by_cases ha : rkey d u a = true <;> by_cases hb : rkey d u b = true <;>
      simp only [ha, hb, if_true, if_false] <;> exact hab
  · rw [if_neg hany]
    rw [List.pairwise_append]
    refine ⟨h, List.pairwise_singleton _ _, fun a ha' b hb' => ?_⟩
    rw [List.mem_singleton] at hb'
    subst hb'
    have hna : ¬ rkey d u a = true :=
      List.any_eq_false.mp (by simpa using hany) a ha'
    show sameReflKey a ⟨d, u, pyStrip w, pyStrip s, pyStrip n, now⟩ = false
    unfold rkey at hna
    unfold sameReflKey
    simpa using fun h1 h2 => hna (by simp [h1, h2])

/-- Reading back the key just written by `save_reflection` returns the three
stripped text fields (on any store state, reachable or not). -/
theorem fetch_after_save (tbl : List ReflRow) (u : String) (d : Nat)
    (w s n now : String) :
    fetch_reflection (save_reflection tbl u d w s n now) u d
      = ⟨pyStrip w, pyStrip s, pyStrip n⟩ := by
  unfold save_reflection fetch_reflection
  by_cases hany : tbl.any (rkey d u) = true
  · rw [if_pos hany,
      find?_map_pres (rkey d u) _ (fun a => by
        by_cases hpa : rkey d u a = true
        · rw [if_pos hpa]
          exact rkey_update d u _ _ _ _ a
        · rw [if_neg hpa])]
    have hsome : (tbl.find? (rkey d u)).isSome = true :=
      List.find?_isSome.mpr (List.any_eq_true.mp hany)
    rcases Option.isSome_iff_exists.mp hsome with ⟨r, hr⟩
    have hpr : rkey d u r = true := List.find?_some hr
    rw [hr]
    simp [hpr, orEmpty_eq]
  · rw [if_neg hany]
    have hnone : tbl.find? (rkey d u) = none :=
      List.find?_eq_none.mpr fun a ha' =>
        List.any_eq_false.mp (by simpa using hany) a ha'
    rw [find?_append_none _ hnone,
      List.find?_cons_of_pos _ (by simp [rkey])]
    simp [orEmpty_eq]

/-! ### Lemmas about the streak walk -/

/-- Characterisation of the backward walk: every one of the first
`streakLoop s d` days counting down from `d` is in `s`, the walk stops at the
first missing day (unless it ran all the way down to day 0), and the result
never exceeds `d + 1`. -/
theorem streakLoop_spec (s : List Nat) : ∀ d : Nat,
    (∀ k, k < streakLoop s d → (d - k) ∈ s) ∧
    (streakLoop s d = d + 1 ∨ (d - streakLoop s d) ∉ s) ∧
    streakLoop s d ≤ d + 1 := by
  intro d
  induction d with
  | zero =>
    unfold streakLoop
    by_cases h : 0 ∈ s
    · rw [if_pos h]
      refine ⟨fun k hk => ?_, Or.inl rfl, le_refl 1⟩
      have hk0 : k = 0 := by omega
      rw [hk0]
      exact h
    · rw [if_neg h]
      exact ⟨fun k hk => absurd hk (by omega), Or.inr h, by omega⟩
  | succ d ih =>
    unfold streakLoop
    by_cases h : d + 1 ∈ s
    · rw [if_pos h]
      obtain ⟨ih1, ih2, ih3⟩ := ih
      refine ⟨fun k hk => ?_, ?_, by omega⟩
      · cases k with
        | zero => exact h
        | succ j =>
          have hj : j < streakLoop s d := by omega
          have hmem := ih1 j hj
          have heq : d + 1 - (j + 1) = d - j := by omega
          rw [heq]
          exact hmem
      · rcases ih2 with h2 | h2
        · exact Or.inl (by omega)
        · refine Or.inr ?_
          have heq : d + 1 - (streakLoop s d + 1) = d - streakLoop s d := by
            omega
          rw [heq]
          exact h2
    · rw [if_neg h]
      exact ⟨fun k hk => absurd hk (by omega), Or.inr h, by omega⟩

/-! ### Lemmas about the counting queries -/

/-- The windowed count decomposes as the sum, over each day of the inclusive
range, of that day's per-row total. -/
theorem count_range_eq_sum_daily (tbl : List LogRow) (u : String)
    (a b : Nat) :
    completed_count_in_range tbl u a b
      = ∑ d ∈ Finset.Icc a b, daily_completion_total tbl u d := by
  unfold completed_count_in_range daily_completion_total
  induction tbl with
  | nil => simp
  | cons r t ih =>
    simp only [List.countP_cons]
    rw [Finset.sum_add_distrib, ← ih]
    congr 1
    by_cases hau : r.author = u
    · by_cases hc : r.completed = 1
      · simp only [hau, hc, Bool.and_eq_true, beq_iff_eq, decide_eq_true_eq,
          and_true, true_and, beq_self_eq_true]
        rw [Finset.sum_ite_eq]
        by_cases hin : r.log_date ∈ Finset.Icc a b
        · rw [if_pos hin, if_pos (Finset.mem_Icc.mp hin)]
        · rw [if_neg hin, if_neg (fun hh => hin (Finset.mem_Icc.mpr hh))]
      · simp [hau, hc]
    · simp [hau]

/-! ### Lemmas about catalog seeding -/

/-- `INSERT OR IGNORE` only ever appends; it never rewrites existing rows. -/
theorem insert_or_ignore_append (tbl : List Challenge) (c : Challenge) :
    ∃ t, insert_or_ignore_challenge tbl c = tbl ++ t := by
  unfold insert_or_ignore_challenge
  by_cases h : tbl.any (fun r => r.code == c.code) = true
  · exact ⟨[], by rw [if_pos h, List.append_nil]⟩
  · exact ⟨[c], by rw [if_neg h]⟩

/-- The whole seeding loop only ever appends. -/
theorem foldl_insert_append (l : List Challenge) :
    ∀ tbl, ∃ t, l.foldl insert_or_ignore_challenge tbl = tbl ++ t := by
  induction l with
  | nil => exact fun tbl => ⟨[], (List.append_nil tbl).symm⟩
  | cons c l ih =>
    intro tbl
    rcases insert_or_ignore_append tbl c with ⟨t0, h0⟩
    rcases ih (insert_or_ignore_challenge tbl c) with ⟨t1, h1⟩
    exact ⟨t0 ++ t1, by rw [List.foldl_cons, h1, h0, List.append_assoc]⟩

/-- After `INSERT OR IGNORE` of `c`, a row with `c`'s code is present. -/
theorem insert_self_code (tbl : List Challenge) (c : Challenge) :
    ∃ r ∈ insert_or_ignore_challenge tbl c, r.code = c.code := by
  unfold insert_or_ignore_challenge
  by_cases h : tbl.any (fun r => r.code == c.code) = true
  · rw [if_pos h]
    rcases List.any_eq_true.mp h with ⟨r, hr, hrc⟩
    exact ⟨r, hr, beq_iff_eq.mp hrc⟩
  · rw [if_neg h]
    exact ⟨c, by simp, rfl⟩

/-- After the seeding loop, every seeded code is present. -/
theorem foldl_insert_code_present (l : List Challenge) :
    ∀ tbl, ∀ c ∈ l,
      ∃ r ∈ l.foldl insert_or_ignore_challenge tbl, r.code = c.code := by
  induction l with
  | nil =>
    intro tbl c hc
    cases hc
  | cons c0 l ih =>
    intro tbl c hc
    rw [List.foldl_cons]
    rcases List.mem_cons.mp hc with h | h
    · subst h
      rcases insert_self_code tbl c with ⟨r, hr, hrc⟩
      rcases foldl_insert_append l (insert_or_ignore_challenge tbl c) with
        ⟨t, ht⟩
      exact ⟨r, by rw [ht]; exact List.mem_append_left _ hr, hrc⟩
    · exact ih _ c h

/-- Seeding a table that already holds every seeded code changes nothing. -/
theorem foldl_insert_of_present (l : List Challenge) :
    ∀ tbl, (∀ c ∈ l, ∃ r ∈ tbl, r.code = c.code) →
      l.foldl insert_or_ignore_challenge tbl = tbl := by
  induction l with
  | nil =>
    intro tbl _
    rfl
  | cons c0 l ih =>
    intro tbl h
    rw [List.foldl_cons]
    have h0 : insert_or_ignore_challenge tbl c0 = tbl := by
      unfold insert_or_ignore_challenge
      rcases h c0 (List.mem_cons_self c0 l) with ⟨r, hr, hrc⟩
      have hb : (tbl.any fun r => r.code == c0.code) = true :=
        List.any_eq_true.mpr ⟨r, hr, by exact beq_iff_eq.mpr hrc⟩
      rw [if_pos hb]
    rw [h0]
    exact ih tbl (fun c hc => h c (List.mem_cons_of_mem _ hc))

/-- `INSERT OR IGNORE` preserves the `code TEXT UNIQUE` constraint. -/
theorem insert_preserves_codesUnique (tbl : List Challenge) (c : Challenge)
    (h : codesUnique tbl) :
    codesUnique (insert_or_ignore_challenge tbl c) := by
  unfold insert_or_ignore_challenge
  by_cases hany : tbl.any (fun r => r.code == c.code) = true
  · rw [if_pos hany]
    exact h
  · rw [if_neg hany]
    unfold codesUnique at h ⊢
    rw [List.pairwise_append]
    refine ⟨h, List.pairwise_singleton _ _, fun a ha b hb => ?_⟩
    rw [List.mem_singleton] at hb
    rw [hb]
    have hfalse : (tbl.any fun r => r.code == c.code) = false :=
      Bool.eq_false_iff.mpr hany
    exact Bool.eq_false_iff.mpr (List.any_eq_false.mp hfalse a ha)

/-- The seeding loop preserves the `code TEXT UNIQUE` constraint. -/
theorem foldl_insert_preserves_codesUnique (l : List Challenge) :
    ∀ tbl, codesUnique tbl →
      codesUnique (l.foldl insert_or_ignore_challenge tbl) := by
  induction l with
  | nil => exact fun tbl h => h
  | cons c l ih =>
    exact fun tbl h => ih _ (insert_preserves_codesUnique tbl c h)

/-- Under the unique-code constraint each code occurs at most once. -/
theorem codesUnique_countP_le_one (tbl : List Challenge)
    (h : codesUnique tbl) (x : String) :
    tbl.countP (fun r => r.code == x) ≤ 1 := by
  rw [List.countP_eq_length_filter]
  refine pairwise_filter_len_le_one (fun a b ha hb => ?_) tbl h
  rw [beq_iff_eq.mp ha, ← beq_iff_eq.mp hb]
  simp

/-- A present code occurs at least once. -/
theorem present_countP_pos (tbl : List Challenge) (x : String)
    (h : ∃ r ∈ tbl, r.code = x) :
    1 ≤ tbl.countP (fun r => r.code == x) := by
  rcases h with ⟨r, hr, hrc⟩
  exact List.countP_pos_iff.mpr ⟨r, hr, beq_iff_eq.mpr hrc⟩

/-! ### Claim theorems -/

/-- C1, counterexample: the claim says the backward walk is anchored at a
caller-supplied `asOf`.  The source `compute_streak(author)` has no `asOf`
parameter: it anchors the walk at `date.today()` read inside the engine.  On
the store `c1_logs` (one completion on day 100), with the wall clock at
day 100 and a caller-intended `asOf` of day 99, the code returns the
today-anchored walk (value 1), not the `asOf`-anchored walk demanded by the
claim (value 0). -/
theorem compute_streak_not_anchored_at_caller_asOf :
    ¬ compute_streak c1_logs "u" 100
        = streakLoop (completedDates c1_logs "u") 99 := by
  decide

/-- C1 (amended): `compute_streak(userLabel)` collects the set of distinct
dates with a `completed = 1` row for the user and walks backward one day at a
time from the wall-clock `today` read inside the engine (`date.today()`), not
from a caller-supplied `asOf`: every one of the first `streak` days counting
down from `today` has a completion, the walk stops at the first day with none
(unless it ran down to the epoch), and in particular the result is 0 when
`today` itself has no completion. -/
theorem compute_streak_consecutive_from_today (tbl : List LogRow)
    (u : String) (today : Nat) :
    (∀ k, k < compute_streak tbl u today →
        (today - k) ∈ completedDates tbl u) ∧
    (compute_streak tbl u today = today + 1 ∨
      (today - compute_streak tbl u today) ∉ completedDates tbl u) ∧
    compute_streak tbl u today ≤ today + 1 ∧
    (today ∉ completedDates tbl u → compute_streak tbl u today = 0) := by
  obtain ⟨h1, h2, h3⟩ := streakLoop_spec (completedDates tbl u) today
  refine ⟨h1, h2, h3, fun hnot => ?_⟩
  by_contra h0
  exact hnot (h1 0 (Nat.pos_of_ne_zero h0))

/-- C1 witness: the theorem instantiated on `c1_logs` at wall-clock day 100,
discharging the inner bound by evaluation. -/
theorem compute_streak_consecutive_from_today_witness :
    (100 - 0) ∈ completedDates c1_logs "u" :=
  (compute_streak_consecutive_from_today c1_logs "u" 100).1 0 (by decide)

/-- C2, counterexample: the claim says `setCompletion` fails with a
`ValidationError` when `userLabel` is the empty string.  The source
`set_challenge_completion` performs no validation at all: called with an
empty author on an empty store it succeeds and inserts the row. -/
theorem set_challenge_completion_accepts_empty_label :
    set_challenge_completion [] "" 5 "BREATH_RESET" 1 "t"
      = [⟨5, "", "BREATH_RESET", 1, "t"⟩] := by
  decide

/-- C2 (amended): `set_challenge_completion` performs no input validation and
has no error taxonomy: for every `userLabel` (the empty string included) and
every `logDate` the upsert succeeds and afterwards the first row found for
`(logDate, userLabel, challengeCode)` carries the written `completed` value.
Empty identities are blocked upstream by the UI gate
(`require_nickname_or_stop`), and store failures surface as raw `sqlite3`
exceptions, not a distinct `StorageError`. -/
theorem set_challenge_completion_never_validates (tbl : List LogRow)
    (u : String) (d : Nat) (c : String) (v : Nat) (now : String) :
    ∃ r, (set_challenge_completion tbl u d c v now).find? (lkey d u c)
        = some r ∧ r.completed = v := by
  unfold set_challenge_completion
  by_cases hany : tbl.any (lkey d u c) = true
  · have hsome : (tbl.find? (lkey d u c)).isSome = true :=
      List.find?_isSome.mpr (List.any_eq_true.mp hany)
    rcases Option.isSome_iff_exists.mp hsome with ⟨r, hr⟩
    have hpr : lkey d u c r = true := List.find?_some hr
    refine ⟨{ r with completed := v, created_at := now }, ?_, rfl⟩
    rw [if_pos hany,
      find?_map_pres (lkey d u c) _ (fun a => by
        by_cases hpa : lkey d u c a = true
        · rw [if_pos hpa]
          exact lkey_update d u c v now a
        · rw [if_neg hpa]),
      hr]
    simp [hpr]
  · refine ⟨⟨d, u, c, v, now⟩, ?_, rfl⟩
    have hnone : tbl.find? (lkey d u c) = none :=
      List.find?_eq_none.mpr fun a ha' =>
        List.any_eq_false.mp (Bool.eq_false_iff.mpr hany) a ha'
    rw [if_neg hany, find?_append_none _ hnone,
      List.find?_cons_of_pos _ (by simp [lkey])]

/-- C3: last write wins.  Starting from any store satisfying the uniqueness
constraint, any nonempty sequence of `set_challenge_completion` calls for one
key `(d, u, c)` leaves exactly one row for that key, and its `completed`
field is the value of the last call. -/
theorem set_completion_last_write_wins (tbl : List LogRow) (u : String)
    (d : Nat) (c : String) (vs : List (Nat × String)) (v : Nat)
    (now : String) (h : logsUnique tbl) :
    (((vs ++ [(v, now)]).foldl
        (fun t x => set_challenge_completion t u d c x.1 x.2) tbl).filter
      (lkey d u c)).map (fun r => r.completed) = [v] := by
  rw [List.foldl_append]
  exact set_filter_completed _ u d c v now
    (foldl_set_preserves_logsUnique u d c vs tbl h)

/-- C3 witness: on the empty store, writing `completed = 1` and then
`completed = 0` for the same key leaves exactly one row holding 0. -/
theorem set_completion_last_write_wins_witness :
    ((([((1 : Nat), "t1")] ++ [((0 : Nat), "t2")]).foldl
        (fun t x => set_challenge_completion t "u" 7 "SMALL_GOAL" x.1 x.2)
        ([] : List LogRow)).filter (lkey 7 "u" "SMALL_GOAL")).map
      (fun r => r.completed) = [0] :=
  set_completion_last_write_wins [] "u" 7 "SMALL_GOAL" [(1, "t1")] 0 "t2"
    (by decide)

/-- C4: the two writing operations preserve the uniqueness invariants: after
`set_challenge_completion` there is still at most one `challenge_logs` row
per `(log_date, author, challenge_code)`, and after `save_reflection` at most
one `daily_reflections` row per `(log_date, author)`. -/
theorem public_ops_preserve_uniqueness (lt : List LogRow) (rt : List ReflRow)
    (u : String) (d : Nat) (c : String) (v : Nat) (now : String)
    (u2 : String) (d2 : Nat) (w s n now2 : String)
    (h1 : logsUnique lt) (h2 : reflsUnique rt) :
    logsUnique (set_challenge_completion lt u d c v now) ∧
    reflsUnique (save_reflection rt u2 d2 w s n now2) :=
  ⟨set_preserves_logsUnique lt u d c v now h1,
   save_preserves_reflsUnique rt u2 d2 w s n now2 h2⟩

/-- C4 witness: the invariants hold after one write into each empty table. -/
theorem public_ops_preserve_uniqueness_witness :
    logsUnique (set_challenge_completion [] "u" 7 "MOVE_10" 1 "t") ∧
    reflsUnique (save_reflection [] "u" 7 "a" "b" "c" "t") :=
  public_ops_preserve_uniqueness [] [] "u" 7 "MOVE_10" 1 "t" "u" 7 "a" "b"
    "c" "t" (by decide) (by decide)

/-- C5: reflection round-trip.  Saving `("a", "b", "c")` for `(u, d)` and
reading it back returns exactly those three fields, on any store state; and
when no row exists for `(u, d)` the read returns three empty strings and
never fails. -/
theorem reflection_round_trip :
    (∀ (rt : List ReflRow) (u : String) (d : Nat) (now : String),
        fetch_reflection (save_reflection rt u d "a" "b" "c" now) u d
          = ⟨"a", "b", "c"⟩) ∧
    (∀ (rt : List ReflRow) (u : String) (d : Nat),
        rt.find? (rkey d u) = none →
          fetch_reflection rt u d = ⟨"", "", ""⟩) := by
  constructor
  · intro rt u d now
    rw [fetch_after_save]
    decide
  · intro rt u d hnone
    unfold fetch_reflection
    rw [hnone]

/-- C5 witness: the round trip and the all-empty default, on the empty
store. -/
theorem reflection_round_trip_witness :
    fetch_reflection (save_reflection [] "MsH" 7 "a" "b" "c" "t") "MsH" 7
        = ⟨"a", "b", "c"⟩ ∧
    fetch_reflection [] "MsH" 7 = ⟨"", "", ""⟩ :=
  ⟨reflection_round_trip.1 [] "MsH" 7 "t",
   reflection_round_trip.2 [] "MsH" 7 (by decide)⟩

/-- C6: `completed_count_in_range` counts individual `completed = 1` rows
whose date lies in the inclusive range: it equals the sum, over every day of
`[start, end]`, of that day's per-row total; and a user who completed three
distinct challenges on one day inside the range contributes 3, not 1. -/
theorem completed_count_per_row_inclusive :
    (∀ (tbl : List LogRow) (u : String) (a b : Nat),
        completed_count_in_range tbl u a b
          = ∑ d ∈ Finset.Icc a b, daily_completion_total tbl u d) ∧
    completed_count_in_range c6_logs "u" 5 7 = 3 :=
  ⟨count_range_eq_sum_daily, by decide⟩

/-- C7: `clean_nickname` is total and pure; for every input the output uses
only characters of `[A-Za-z0-9 _-]` and has length at most 20 (so it matches
the regular expression of the claim), and the empty input yields the empty
output. -/
theorem clean_nickname_bounded_charset (s : String) :
    (clean_nickname s).data.all isAllowedChar = true ∧
    (clean_nickname s).length ≤ 20 ∧ clean_nickname "" = "" := by
  refine ⟨?_, ?_, by decide⟩
  · apply List.all_eq_true.mpr
    intro c hc
    have hc' := List.take_subset 20 _ hc
    exact (List.mem_filter.mp hc').2
  · show (((collapseWs (stripChars s.data)).filter isAllowedChar).take
      20).length ≤ 20
    rw [List.length_take]
    exact min_le_left _ _

/-- C8: seeding is an idempotent insert-if-absent keyed by `code`: it only
appends (every pre-existing row is left untouched in place), running it a
second time changes nothing, and on a store satisfying the unique-code
constraint every default code ends up with exactly one row. -/
theorem seed_defaults_insert_if_absent (tbl : List Challenge)
    (h : codesUnique tbl) :
    (∃ t, seed_default_challenges tbl = tbl ++ t) ∧
    seed_default_challenges (seed_default_challenges tbl)
      = seed_default_challenges tbl ∧
    ∀ c ∈ default_challenges,
      (seed_default_challenges tbl).countP (fun r => r.code == c.code)
        = 1 := by
  refine ⟨foldl_insert_append default_challenges tbl, ?_, ?_⟩
  · exact foldl_insert_of_present default_challenges _
      (fun c hc => foldl_insert_code_present default_challenges tbl c hc)
  · intro c hc
    have hu : codesUnique (seed_default_challenges tbl) :=
      foldl_insert_preserves_codesUnique default_challenges tbl h
    have hle := codesUnique_countP_le_one _ hu c.code
    have hge := present_countP_pos _ c.code
      (foldl_insert_code_present default_challenges tbl c hc)
    exact Nat.le_antisymm hle hge

/-- C8 witness: seeding the empty catalog twice equals seeding it once. -/
theorem seed_defaults_insert_if_absent_witness :
    seed_default_challenges (seed_default_challenges [])
      = seed_default_challenges [] :=
  (seed_defaults_insert_if_absent [] (by decide)).2.1

/-- C9: the daily total is the windowed count on the degenerate single-day
range: `daily_completion_total u d = completed_count_in_range u d d` for
every store, user and date. -/
theorem daily_total_is_degenerate_range (tbl : List LogRow) (u : String)
    (d : Nat) :
    daily_completion_total tbl u d = completed_count_in_range tbl u d d := by
  unfold daily_completion_total completed_count_in_range
  refine List.countP_congr (fun r _ => ?_)
  simp only [Bool.and_eq_true, beq_iff_eq, decide_eq_true_eq]
  by_cases hau : r.author = u
  · simp only [hau, true_and]
    omega
  · simp [hau]

/-- C10: `save_reflection` strips surrounding whitespace from `win`,
`stress_shift` and `note` before storing, so a read of the same key returns
the stripped values; in particular saving `" a "`, `" b "`, `" c "` reads
back as `"a"`, `"b"`, `"c"`. -/
theorem save_reflection_strips_whitespace :
    (∀ (rt : List ReflRow) (u : String) (d : Nat) (w s n now : String),
        fetch_reflection (save_reflection rt u d w s n now) u d
          = ⟨pyStrip w, pyStrip s, pyStrip n⟩) ∧
    (∀ (rt : List ReflRow) (u : String) (d : Nat) (now : String),
        fetch_reflection (save_reflection rt u d " a " " b " " c " now) u d
          = ⟨"a", "b", "c"⟩) :=
  ⟨fetch_after_save, fun rt u d now => by rw [fetch_after_save]; decide⟩

end TeachHub
